import Mathlib

/-!
Verification development for the `safetar` hardened TAR extractor.

The Python source is shallowly embedded: member names and filesystem
paths are `List Char` (so that every character-level step of the code is
explicit), fallible operations return `Except Err`, and the parts of the
behaviour that depend on the ambient system (Unicode NFC normalisation,
`Path.resolve`, on-disk existence, symlink-chain walking, process ids)
are explicit function parameters.
-/

namespace Safetar

/-- Member names and filesystem paths, modelled character by character
(the Python code works on `str`). -/
abbrev Str := List Char

/-- The NUL character rejected by the name checks. -/
def nulChar : Char := Char.ofNat 0

/-- Reasons attached to `UnsafeEntryError`, distinguishing which check of
the sandbox or guard fired (the Python code distinguishes them only by
the message text). -/
inductive Reason where
  | absolutePath
  | windowsAbsolute
  | traversal
  | emptyPath
  | nullByte
  | overLength
  | escapesBase
  | symlinkRejected
  | hardlinkRejected
  | forwardReference
  | targetMissing
  | chainEscape
  | emptyFilename
  | filenameNull
  | filenameLength
  | paxNull
  | paxLength
deriving DecidableEq

/-- Labels attached to `UnsafeEntryTypeError` (the human-readable part of
the message in `_guard.validate_entry_type`). -/
inductive TypeLabel where
  | sparseRejected
  | charDevice
  | blockDevice
  | fifo
  | forbidden
  | unrecognised
deriving DecidableEq

/-- The safetar exception taxonomy (`_exceptions.py`), plus `ioError`
standing for a non-safetar `OSError` propagating out of the streamer. -/
inductive Err where
  | unsafeEntry (r : Reason)
  | unsafeEntryType (l : TypeLabel)
  | fileSizeExceeded
  | totalSizeExceeded
  | compressionRatio
  | fileCountExceeded
  | malformedArchive
  | ioError
deriving DecidableEq

/-- Maximum path length accepted (`MAX_PATH = 4096` in `_sandbox.py` and
`_guard.py`). -/
def MAX_PATH : Nat := 4096

/-- Backslash-to-slash normalisation, `normalized.replace("\\", "/")` in
`resolve_member_path`. -/
def normSep (s : Str) : Str :=
  s.map (fun c => if c = '\\' then '/' else c)

/-- Does the (already separator-normalised) name start with `/`
(`_norm.startswith("/")`)? -/
def startsWithSlash : Str → Bool
  | '/' :: _ => true
  | _ => false

/-- The Windows drive-letter absolute check of `resolve_member_path`:
`len(_norm) >= 3 and _norm[1] == ":" and _norm[2] == "/" and
_norm[0].isalpha()`. -/
def isWindowsAbs : Str → Bool
  | c0 :: c1 :: c2 :: _ => c1 == ':' && c2 == '/' && c0.isAlpha
  | _ => false

/-- Python `str.split("/")`: splits on every slash, keeping empty
segments (so `"a/"` gives `["a", ""]` and `""` gives `[""]`). -/
def splitSlash : Str → List Str
  | [] => [[]]
  | c :: rest =>
    let r := splitSlash rest
    if c = '/' then [] :: r
    else
      match r with
      | h :: t => (c :: h) :: t
      | [] => [[c]]

/-- The cleaning loop of `resolve_member_path` step 3: skip empty and
`"."` segments, reject any `".."` segment outright. -/
def cleanParts : List Str → Except Err (List Str)
  | [] => .ok []
  | p :: rest =>
    if p = [] ∨ p = ['.'] then cleanParts rest
    else if p = ['.', '.'] then .error (.unsafeEntry .traversal)
    else (cleanParts rest).map (fun t => p :: t)

/-- Python `"/".join`. -/
def joinSlash : List Str → Str
  | [] => []
  | [p] => p
  | p :: rest => p ++ '/' :: joinSlash rest

/-- The belt-and-braces containment condition of `resolve_member_path`:
`real == base or str(real).startswith(str(base) + os.sep)`, where `real`
is `resolved.resolve()` when that succeeds and `resolved` itself when it
raises `OSError` (`fsResolve` returning `none` models the `OSError`
branch). -/
def containedIn (fsResolve : Str → Option Str) (base p : Str) : Prop :=
  ((fsResolve p).getD p) = base ∨
    (base ++ ['/']).isPrefixOf ((fsResolve p).getD p) = true

instance (fsResolve : Str → Option Str) (base p : Str) :
    Decidable (containedIn fsResolve base p) := by
  unfold containedIn; infer_instance

/-- Embedding of `_sandbox.resolve_member_path`.  `nfc` models
`unicodedata.normalize("NFC", ·)` (identity on ASCII); `fsResolve`
models `Path.resolve` against the ambient filesystem, `none` standing
for the tolerated `OSError`; `base` is the already-resolved base
directory string (`Path(base_dir).resolve()`), assumed not to end in a
separator (any resolved non-root absolute path). -/
def resolve_member_path (nfc : Str → Str) (fsResolve : Str → Option Str)
    (base : Str) (member_name : Str) : Except Err Str :=
  let normalized := nfc member_name
  let norm := normSep normalized
  if startsWithSlash norm then
    .error (.unsafeEntry .absolutePath)
  else if isWindowsAbs norm then
    .error (.unsafeEntry .windowsAbsolute)
  else
    match cleanParts (splitSlash norm) with
    | .error e => .error e
    | .ok clean =>
      if clean = [] then .error (.unsafeEntry .emptyPath)
      else
        let joined := joinSlash clean
        if joined.contains nulChar then .error (.unsafeEntry .nullByte)
        else
          let resolved := base ++ '/' :: joined
          if MAX_PATH < resolved.length then .error (.unsafeEntry .overLength)
          else if containedIn fsResolve base resolved then .ok resolved
          else .error (.unsafeEntry .escapesBase)

/-- The hypothesis of claim C1: the NFC-normalised,
separator-normalised form of the name contains a `..` path segment. -/
def hasDotDotSegment (s : Str) : Prop := ['.', '.'] ∈ splitSlash s

instance (s : Str) : Decidable (hasDotDotSegment s) := by
  unfold hasDotDotSegment; infer_instance

/-- Policy for symlink entries (`_events.SymlinkPolicy`). -/
inductive SymlinkPolicy where
  | reject
  | ignore
  | resolveInternal
deriving DecidableEq

/-- Policy for hardlink entries (`_events.HardlinkPolicy`). -/
inductive HardlinkPolicy where
  | reject
  | internal
deriving DecidableEq

/-- Policy for GNU sparse entries (`_events.SparsePolicy`). -/
inductive SparsePolicy where
  | reject
  | materialise
deriving DecidableEq

/-- Guard disposition (`validate_entry_type` returns the strings
`"extract"`, `"skip"`, `"defer_symlink"`). -/
inductive Disposition where
  | extract
  | skip
  | deferSymlink
deriving DecidableEq

/-- One `source.read(...)` outcome during streaming extraction: a chunk
of `n` bytes, or an exception from the reader (`tarfile.TarError`,
`EOFError`) or from the I/O layer (`OSError`). -/
inductive ReadEv where
  | chunk (n : Nat)
  | tarErr
  | eofErr
  | ioErr
deriving DecidableEq

/-- Result of `tf.extractfile(info)`: `none'` models the `None` return
(zero-length or content-less member), `raises` models the call itself
raising (`isTar = true` for a `tarfile.TarError`, false for `OSError`),
`stream` the returned chunk source. -/
inductive SourceR where
  | none'
  | raises (isTar : Bool)
  | stream (evs : List ReadEv)
deriving DecidableEq

/-- TAR type codes (`tarfile` constants; `AREGTYPE` is the NUL byte). -/
def regType : Char := '0'

def aregType : Char := Char.ofNat 0

def contType : Char := '7'

def dirType : Char := '5'

def symType : Char := '2'

def lnkType : Char := '1'

def chrType : Char := '3'

def blkType : Char := '4'

def fifoType : Char := '6'

def gnuSparseType : Char := 'S'

/-- PAX header keys used by the guard. -/
def paxKeyPath : Str := ['p', 'a', 't', 'h']

def paxKeySparseMajor : Str :=
  ['G', 'N', 'U', '.', 's', 'p', 'a', 'r', 's', 'e', '.', 'm', 'a', 'j', 'o', 'r']

def paxKeySparseSize : Str :=
  ['G', 'N', 'U', '.', 's', 'p', 'a', 'r', 's', 'e', '.', 's', 'i', 'z', 'e']

/-- Embedding of `tarfile.TarInfo` (the fields the guard, sandbox and
streamer read).  `sparseAttr` models `info.sparse` being a non-empty
list; `paxHeaders` models `info.pax_headers`; `source` models what
`tf.extractfile(info)` will yield for this member. -/
structure TarInfo where
  name : Str
  typeCode : Char
  linkname : Str
  sparseAttr : Bool
  paxHeaders : List (Str × Str)
  mode : Option Int
  uid : Int
  gid : Int
  mtime : Int
  source : SourceR
deriving DecidableEq

/-- Lookup in the PAX header map. -/
def paxGet (pax : List (Str × Str)) (key : Str) : Option Str :=
  (pax.find? (fun kv => kv.1 = key)).map (fun kv => kv.2)

/-- Embedding of `_guard._is_sparse`: the reader's sparse attribute, the
GNU `S` type byte, or the `GNU.sparse.major` / `GNU.sparse.size` PAX
keys. -/
def is_sparse (info : TarInfo) : Bool :=
  info.sparseAttr || info.typeCode == gnuSparseType ||
    (paxGet info.paxHeaders paxKeySparseMajor).isSome ||
    (paxGet info.paxHeaders paxKeySparseSize).isSome

/-- Membership in `_REGULAR_TYPES = {REGTYPE, AREGTYPE, CONTTYPE}`. -/
def inRegularTypes (c : Char) : Bool :=
  c == regType || c == aregType || c == contType

/-- Membership in `_DIR_TYPE = {DIRTYPE}`. -/
def inDirTypes (c : Char) : Bool := c == dirType

/-- Membership in `_SYMLINK_TYPE = {SYMTYPE}`. -/
def inSymlinkTypes (c : Char) : Bool := c == symType

/-- Membership in `_HARDLINK_TYPE = {LNKTYPE}`. -/
def inHardlinkTypes (c : Char) : Bool := c == lnkType

/-- Membership in `_FORBIDDEN_TYPES = {CHRTYPE, BLKTYPE, FIFOTYPE}`. -/
def inForbiddenTypes (c : Char) : Bool :=
  c == chrType || c == blkType || c == fifoType

/-- The `_type_names.get(info.type, "forbidden")` label lookup. -/
def typeLabelFor (c : Char) : TypeLabel :=
  if c = chrType then .charDevice
  else if c = blkType then .blockDevice
  else if c = fifoType then .fifo
  else .forbidden

/-- Embedding of `_guard.validate_entry_type`. -/
def validate_entry_type (info : TarInfo) (symlink_policy : SymlinkPolicy)
    (hardlink_policy : HardlinkPolicy) (sparse_policy : SparsePolicy) :
    Except Err Disposition :=
  if is_sparse info then
    if sparse_policy = .reject then
      .error (.unsafeEntryType .sparseRejected)
    else
      .ok .extract
  else if inRegularTypes info.typeCode then .ok .extract
  else if inDirTypes info.typeCode then .ok .extract
  else if inSymlinkTypes info.typeCode then
    match symlink_policy with
    | .reject => .error (.unsafeEntry .symlinkRejected)
    | .ignore => .ok .skip
    | .resolveInternal => .ok .deferSymlink
  else if inHardlinkTypes info.typeCode then
    match hardlink_policy with
    | .reject => .error (.unsafeEntry .hardlinkRejected)
    | .internal => .ok .extract
  else if inForbiddenTypes info.typeCode then
    .error (.unsafeEntryType (typeLabelFor info.typeCode))
  else
    .error (.unsafeEntryType .unrecognised)

/-- Embedding of `_guard.validate_filename` (the effective name is
`info.name`, per `_effective_name`). -/
def validate_filename (info : TarInfo) : Except Err Str :=
  let name := info.name
  if name = [] ∨ name.all Char.isWhitespace then
    .error (.unsafeEntry .emptyFilename)
  else if name.contains nulChar then
    .error (.unsafeEntry .filenameNull)
  else if MAX_PATH < name.length then
    .error (.unsafeEntry .filenameLength)
  else
    .ok name

/-- Embedding of `_guard.validate_pax_path`. -/
def validate_pax_path (info : TarInfo) : Except Err (Option Str) :=
  match paxGet info.paxHeaders paxKeyPath with
  | none => .ok none
  | some pax_path =>
    if pax_path.contains nulChar then .error (.unsafeEntry .paxNull)
    else if MAX_PATH < pax_path.length then .error (.unsafeEntry .paxLength)
    else .ok (some pax_path)

/-- Embedding of `_streamer.ExtractionMonitor` (configuration plus the
two mutable counters).  `maxRatio` is exact rational arithmetic standing
for the Python float comparison. -/
structure ExtractionMonitor where
  maxFileSize : Int
  maxTotalSize : Int
  maxRatio : ℚ
  archiveSize : Int
  memberBytes : Nat
  totalBytes : Nat
deriving DecidableEq

/-- `ExtractionMonitor.reset_member`. -/
def ExtractionMonitor.reset_member (m : ExtractionMonitor) : ExtractionMonitor :=
  { m with memberBytes := 0 }

/-- `ExtractionMonitor._check_ratio`: returns without dividing when
`archive_size <= 0`. -/
def ExtractionMonitor.check_ratio (m : ExtractionMonitor) : Except Err Unit :=
  if m.archiveSize ≤ 0 then .ok ()
  else if m.maxRatio < (m.totalBytes : ℚ) / (m.archiveSize : ℚ) then
    .error .compressionRatio
  else .ok ()

/-- `ExtractionMonitor.account`: add `n` to both counters, then enforce
the per-member, total, and ratio limits in that order. -/
def ExtractionMonitor.account (m : ExtractionMonitor) (n : Nat) :
    Except Err ExtractionMonitor :=
  let m' := { m with memberBytes := m.memberBytes + n,
                     totalBytes := m.totalBytes + n }
  if m.maxFileSize < (m'.memberBytes : Int) then .error .fileSizeExceeded
  else if m.maxTotalSize < (m'.totalBytes : Int) then .error .totalSizeExceeded
  else (m'.check_ratio).map (fun _ => m')

/-- Exceptions as seen inside the `try` block of
`extract_member_streaming`, before the `except` clauses remap them:
safetar monitor errors pass through, `tarfile.TarError` / `EOFError` /
`OSError` are distinguished. -/
inductive StreamExc where
  | safetar (e : Err)
  | tarError
  | eofError
  | osError
deriving DecidableEq

/-- The remapping performed by the `except` clauses of
`extract_member_streaming`: `tarfile.TarError` and `EOFError` become
`MalformedArchiveError`; everything else propagates unchanged. -/
def remapExc : StreamExc → Err
  | .safetar e => e
  | .tarError => .malformedArchive
  | .eofError => .malformedArchive
  | .osError => .ioError

/-- A flat model of the filesystem region touched by the streamer: an
association list from path to file size (later bindings shadow earlier
ones). -/
abbrev FS := List (Str × Nat)

/-- File lookup. -/
def fsGet : FS → Str → Option Nat
  | [], _ => none
  | (q, v) :: rest, p => if q = p then some v else fsGet rest p

/-- Create or overwrite a file. -/
def fsSet (fs : FS) (p : Str) (v : Nat) : FS := (p, v) :: fs

/-- `unlink(missing_ok=True)`. -/
def fsDel : FS → Str → FS
  | [], _ => []
  | (q, v) :: rest, p => if q = p then fsDel rest p else (q, v) :: fsDel rest p

/-- `temp_path.rename(dest_path)`. -/
def fsRename (fs : FS) (tmp dest : Str) : FS :=
  fsSet (fsDel fs tmp) dest ((fsGet fs tmp).getD 0)

/-- The chunk-copy loop of `extract_member_streaming`: write each chunk
to the temporary file, then `monitor.account(len(chunk))`; reader
exceptions abort the loop.  Returns the loop outcome together with the
filesystem state before any cleanup. -/
def writeChunks (temp : Str) :
    List ReadEv → ExtractionMonitor → FS → Except StreamExc ExtractionMonitor × FS
  | [], m, fs => (.ok m, fs)
  | .chunk n :: rest, m, fs =>
    let fs' := fsSet fs temp ((fsGet fs temp).getD 0 + n)
    match m.account n with
    | .error e => (.error (.safetar e), fs')
    | .ok m' => writeChunks temp rest m' fs'
  | .tarErr :: _, _, fs => (.error .tarError, fs)
  | .eofErr :: _, _, fs => (.error .eofError, fs)
  | .ioErr :: _, _, fs => (.error .osError, fs)

/-- Embedding of `_streamer.extract_member_streaming` for a single
member.  `temp` stands for the `.safetar_tmp_<pid>_<rand6>` sibling of
`dest`.  Directory creation is not tracked by `FS`, which only records
regular files.  On any failure the temporary file is unlinked
(`missing_ok`) and the (possibly remapped) exception is returned; the
destination is only ever touched by the final rename. -/
def extract_member_streaming (source : SourceR) (dest temp : Str)
    (m : ExtractionMonitor) (fs : FS) :
    Except Err Unit × FS × ExtractionMonitor :=
  let m0 := m.reset_member
  match source with
  | .raises isTar =>
    -- `tf.extractfile` raised before the temp file was opened; the
    -- handler still unlinks the (absent) temp file.
    (.error (remapExc (if isTar then .tarError else .osError)), fsDel fs temp, m0)
  | .none' =>
    -- `temp_path.touch()` then rename.
    let fs1 := fsSet fs temp 0
    (.ok (), fsRename fs1 temp dest, m0)
  | .stream evs =>
    -- `open(temp_path, "wb")` truncates/creates, then the copy loop.
    let fs1 := fsSet fs temp 0
    match writeChunks temp evs m0 fs1 with
    | (.ok m', fs2) => (.ok (), fsRename fs2 temp dest, m')
    | (.error exc, fs2) => (.error (remapExc exc), fsDel fs2 temp, m0)

/-- Embedding of `_sandbox.verify_hardlink_target`: resolve the raw
target through the member-name pipeline, reject forward references
(target not yet extracted) and targets missing on disk (`disk` models
`Path.exists`). -/
def verify_hardlink_target (nfc : Str → Str) (fsResolve : Str → Option Str)
    (disk : Str → Bool) (base : Str) (link_name_resolved : Str)
    (link_target : Str) (extracted_paths : List Str) : Except Err Str :=
  match resolve_member_path nfc fsResolve base link_target with
  | .error e => .error e
  | .ok target_resolved =>
    if target_resolved ∉ extracted_paths then
      .error (.unsafeEntry .forwardReference)
    else if disk target_resolved = false then
      .error (.unsafeEntry .targetMissing)
    else
      .ok target_resolved

/-- Process credentials as queried by the `os` module: `os.getuid` /
`os.getgid` return the real ids, `os.geteuid` / `os.getegid` the
effective ids (they differ in setuid processes). -/
structure ProcessIds where
  realUid : Int
  realGid : Int
  effUid : Int
  effGid : Int
deriving DecidableEq

/-- Embedding of `_sandbox.sanitise_ownership`: the code calls
`os.getuid()` and `os.getgid()` — the real ids — in the
non-preserving branch. -/
def sanitise_ownership (uid gid : Int) (preserve_ownership : Bool)
    (proc : ProcessIds) : Int × Int :=
  if preserve_ownership then (uid, gid)
  else (proc.realUid, proc.realGid)

/-- One `tf.next()` outcome during the pre-scan: a member header, or an
exception from the reader (`tarfile.TarError`), the decompressor
(`EOFError`) or the I/O layer (`OSError`).  The end of the list models
`next()` returning `None`. -/
inductive ScanEv where
  | member
  | tarErr
  | eofErr
  | osErr
deriving DecidableEq

/-- Exceptions raisable inside the `with` block of
`pre_scan_file_count`. -/
inductive ScanExc where
  | fcee
  | tar
  | eof
  | os
deriving DecidableEq

/-- The counted `next()` loop of `pre_scan_file_count`: increment per
header and raise `FileCountExceededError` as soon as the count exceeds
`max_files`. -/
def scanLoop (maxFiles : Int) : List ScanEv → Nat → Except ScanExc Unit
  | [], _ => .ok ()
  | .member :: rest, count =>
    if maxFiles < ((count + 1 : Nat) : Int) then .error .fcee
    else scanLoop maxFiles rest (count + 1)
  | .tarErr :: _, _ => .error .tar
  | .eofErr :: _, _ => .error .eof
  | .osErr :: _, _ => .error .os

/-- Embedding of `_guard.pre_scan_file_count`.  `openFail` models
`tarfile.open` raising a `TarError`; `closeExc` models the implicit
`tf.close()` of the `with` statement raising on exit (Python then
propagates the close exception with the pending body exception as its
`__context__`).  The first component is the call's outcome after the
`except` clauses ran; the second is whether the stream was rewound to
position 0 (the `finally` clause). -/
def pre_scan_file_count (openFail : Bool) (closeExc : Option ScanExc)
    (evs : List ScanEv) (maxFiles : Int) : Except Err Unit × Bool :=
  let raised : Option (ScanExc × Option ScanExc) :=
    if openFail then some (.tar, none)
    else
      match scanLoop maxFiles evs 0, closeExc with
      | .ok _, none => none
      | .ok _, some c => some (c, none)
      | .error e, none => some (e, none)
      | .error e, some c => some (c, some e)
  match raised with
  | none => (.ok (), true)
  | some (exc, ctx) =>
    match exc with
    | .fcee =>
      -- not a `(TarError, EOFError, OSError)`; re-raised verbatim by the
      -- dedicated `except FileCountExceededError` clause.
      (.error .fileCountExceeded, true)
    | _ =>
      if ctx = some .fcee then (.error .fileCountExceeded, true)
      else (.error .malformedArchive, true)

/-- Filesystem-visible steps of `SafeTarFile.extractall`, in the order
they are performed.  `ensureParent d` is the recursive
`mkdir(parents=True)` of the parent of destination `d`. -/
inductive Action where
  | ensureParent (dest : Str)
  | mkdirA (p : Str)
  | writeFileA (p : Str)
  | hardlinkA (target p : Str)
  | fileMetaA (p : Str)
  | symlinkA (p : Str) (target : Str)
  | dirMetaA (p : Str)
deriving DecidableEq

/-- Orchestrator state threaded through the member loop of
`extractall`: the monitor, the two deferred queues, and the
`extracted_paths` set. -/
structure OState where
  monitor : ExtractionMonitor
  syms : List (Str × Str)
  dirs : List (TarInfo × Str)
  extracted : List Str

/-- The monitor accounting performed by the chunk-copy loop, without
the temp-file bookkeeping (`writeChunks` projected to its first
component). -/
def accountChunks : List ReadEv → ExtractionMonitor → Except StreamExc ExtractionMonitor
  | [], m1 => .ok m1
  | .chunk n :: rest, m1 =>
    match m1.account n with
    | .error e => .error (.safetar e)
    | .ok m2 => accountChunks rest m2
  | .tarErr :: _, _ => .error .tarError
  | .eofErr :: _, _ => .error .eofError
  | .ioErr :: _, _ => .error .osError

/-- The streamer as seen from the orchestrator: same control flow as
`extract_member_streaming`, abstracting away the temp-file bookkeeping
(kept in the standalone streamer model) and returning the updated
monitor. -/
def streamOrch (source : SourceR) (m : ExtractionMonitor) :
    Except Err ExtractionMonitor :=
  let m0 := m.reset_member
  match source with
  | .none' => .ok m0
  | .raises isTar => .error (remapExc (if isTar then .tarError else .osError))
  | .stream evs =>
    match accountChunks evs m0 with
    | .ok m' => .ok m'
    | .error exc => .error (remapExc exc)

/-- Embedding of `SafeTarFile._extract_one_inner`: Guard, then Sandbox
path resolution (effective name and PAX override), then the
type-specific branch (defer symlink / mkdir / hardlink / stream).
Returns the filesystem actions performed for this member and the
updated state. -/
def extract_one (nfc : Str → Str) (fsResolve : Str → Option Str)
    (disk : Str → Bool) (sp : SymlinkPolicy) (hp : HardlinkPolicy)
    (spp : SparsePolicy) (base : Str) (info : TarInfo) (st : OState) :
    Except Err (List Action × OState) :=
  match validate_entry_type info sp hp spp with
  | .error e => .error e
  | .ok disposition =>
    if disposition = .skip then .ok ([], st)
    else
      match validate_filename info with
      | .error e => .error e
      | .ok effective_name =>
        match validate_pax_path info with
        | .error e => .error e
        | .ok pax_path =>
          match resolve_member_path nfc fsResolve base effective_name with
          | .error e => .error e
          | .ok dest_path =>
            match (match pax_path with
                   | some p =>
                     if p ≠ effective_name then
                       (resolve_member_path nfc fsResolve base p).map (fun _ => ())
                     else .ok ()
                   | none => .ok ()) with
            | .error e => .error e
            | .ok _ =>
              if disposition = .deferSymlink then
                .ok ([], { st with syms := st.syms ++ [(dest_path, info.linkname)] })
              else if info.typeCode = dirType then
                .ok ([.mkdirA dest_path],
                     { st with dirs := st.dirs ++ [(info, dest_path)],
                               extracted := dest_path :: st.extracted })
              else if info.typeCode = lnkType then
                match verify_hardlink_target nfc fsResolve disk base dest_path
                        info.linkname st.extracted with
                | .error e => .error e
                | .ok target_path =>
                  .ok ([.ensureParent dest_path, .hardlinkA target_path dest_path],
                       { st with extracted := dest_path :: st.extracted })
              else
                match streamOrch info.source st.monitor with
                | .error e => .error e
                | .ok m' =>
                  .ok ([.ensureParent dest_path, .writeFileA dest_path,
                        .fileMetaA dest_path],
                       { st with monitor := m',
                                 extracted := dest_path :: st.extracted })

/-- The member loop of `extractall`: run `extract_one` over each header
in archive order, accumulating the action trace; the first error aborts
the loop. -/
def runMembers (nfc : Str → Str) (fsResolve : Str → Option Str)
    (disk : Str → Bool) (sp : SymlinkPolicy) (hp : HardlinkPolicy)
    (spp : SparsePolicy) (base : Str) :
    List TarInfo → OState → List Action × OState × Option Err
  | [], st => ([], st, none)
  | info :: rest, st =>
    match extract_one nfc fsResolve disk sp hp spp base info st with
    | .error e => ([], st, some e)
    | .ok (acts, st') =>
      let r := runMembers nfc fsResolve disk sp hp spp base rest st'
      (acts ++ r.1, r.2)

/-- The deferred-symlink loop of `extractall`: re-verify each chain
(`verify_symlink_chain`, abstracted as the filesystem-dependent oracle
`chainOk` since it walks links on disk), create parents, create the
symlink with the raw target. -/
def runSymlinks (chainOk : Str → Str → Bool) :
    List (Str × Str) → List Action × Option Err
  | [] => ([], none)
  | (p, t) :: rest =>
    if chainOk p t then
      let r := runSymlinks chainOk rest
      (.ensureParent p :: .symlinkA p t :: r.1, r.2)
    else
      ([], some (.unsafeEntry .chainEscape))

/-- The deferred-directory-metadata loop of `extractall`. -/
def runDirs : List (TarInfo × Str) → List Action
  | [] => []
  | (_, p) :: rest => .dirMetaA p :: runDirs rest

/-- Embedding of `SafeTarFile.extractall`: the member loop, then all
deferred symlinks, then all deferred directory metadata.  Returns the
action trace together with the error that aborted the run, if any. -/
def extractall (nfc : Str → Str) (fsResolve : Str → Option Str)
    (disk : Str → Bool) (chainOk : Str → Str → Bool) (sp : SymlinkPolicy)
    (hp : HardlinkPolicy) (spp : SparsePolicy) (base : Str)
    (m0 : ExtractionMonitor) (infos : List TarInfo) :
    List Action × Option Err :=
  let st0 : OState := ⟨m0, [], [], []⟩
  let r := runMembers nfc fsResolve disk sp hp spp base infos st0
  match r.2.2 with
  | some e => (r.1, some e)
  | none =>
    let rs := runSymlinks chainOk r.2.1.syms
    match rs.2 with
    | some e => (r.1 ++ rs.1, some e)
    | none => (r.1 ++ rs.1 ++ runDirs r.2.1.dirs, none)

/-- Phase-membership predicates over the action trace. -/
def isMemberAction : Action → Bool
  | .symlinkA _ _ => false
  | .dirMetaA _ => false
  | _ => true

def isSymPhaseAction : Action → Bool
  | .ensureParent _ => true
  | .symlinkA _ _ => true
  | _ => false

def isDirMetaAction : Action → Bool
  | .dirMetaA _ => true
  | _ => false

/-- The filesystem paths an action touches as destinations (symlink raw
targets are strings, not resolved paths, so they are excluded). -/
def actionPaths : Action → List Str
  | .ensureParent p => [p]
  | .mkdirA p => [p]
  | .writeFileA p => [p]
  | .hardlinkA t p => [t, p]
  | .fileMetaA p => [p]
  | .symlinkA p _ => [p]
  | .dirMetaA p => [p]

/-- Invariant of the orchestrator state: every path queued for the
deferred symlink and directory phases was produced by
`resolve_member_path` and therefore satisfies the containment check. -/
def GoodState (fsResolve : Str → Option Str) (base : Str) (st : OState) : Prop :=
  (∀ pt ∈ st.syms, containedIn fsResolve base pt.1) ∧
  (∀ pd ∈ st.dirs, containedIn fsResolve base pd.2)

/-- Written from the wording of claim C3 (for comparison with
`ExtractionMonitor.account`): add `n` to both counters, then
`FileSizeExceededError` when the per-member counter exceeds
`max_file_size`, otherwise `TotalSizeExceededError` when the total
counter exceeds `max_total_size`, otherwise `CompressionRatioError`
when `archive_size > 0` and the ratio exceeds `max_ratio`. -/
def accountClaim (m : ExtractionMonitor) (n : Nat) :
    Except Err ExtractionMonitor :=
  let m' := { m with memberBytes := m.memberBytes + n,
                     totalBytes := m.totalBytes + n }
  if m.maxFileSize < (m'.memberBytes : Int) then .error .fileSizeExceeded
  else if m.maxTotalSize < (m'.totalBytes : Int) then .error .totalSizeExceeded
  else if 0 < m.archiveSize ∧ m.maxRatio < (m'.totalBytes : ℚ) / (m.archiveSize : ℚ) then
    .error .compressionRatio
  else .ok m'

/-- Written from the wording of claim C7 (for comparison with
`validate_entry_type`): sparseness first, then regular files and
directories, then symlinks per policy, hardlinks per policy, devices
and FIFOs with their labels, and everything else unrecognised. -/
def validateEntryTypeClaim (info : TarInfo) (sp : SymlinkPolicy)
    (hp : HardlinkPolicy) (spp : SparsePolicy) : Except Err Disposition :=
  if is_sparse info then
    match spp with
    | .reject => .error (.unsafeEntryType .sparseRejected)
    | .materialise => .ok .extract
  else if info.typeCode = regType ∨ info.typeCode = aregType ∨
          info.typeCode = contType ∨ info.typeCode = dirType then
    .ok .extract
  else if info.typeCode = symType then
    match sp with
    | .reject => .error (.unsafeEntry .symlinkRejected)
    | .ignore => .ok .skip
    | .resolveInternal => .ok .deferSymlink
  else if info.typeCode = lnkType then
    match hp with
    | .reject => .error (.unsafeEntry .hardlinkRejected)
    | .internal => .ok .extract
  else if info.typeCode = chrType then .error (.unsafeEntryType .charDevice)
  else if info.typeCode = blkType then .error (.unsafeEntryType .blockDevice)
  else if info.typeCode = fifoType then .error (.unsafeEntryType .fifo)
  else .error (.unsafeEntryType .unrecognised)

/-- Concrete inputs used by the witness theorems below. -/
def fsResolveW : Str → Option Str := fun _ => none

def baseW : Str := ['/', 't', 'm', 'p', '/', 'o', 'u', 't']

/-- A base directory string of length 4095, for the composed-length
claim C10. -/
def longBaseW : Str := '/' :: List.replicate 4094 'a'

def monitorW : ExtractionMonitor :=
  { maxFileSize := 100, maxTotalSize := 1000, maxRatio := (200 : ℚ),
    archiveSize := 0, memberBytes := 0, totalBytes := 0 }

/-- Monitor whose per-member limit is already violated by any write
(used to exercise the `archive_size <= 0` conjunct of C3). -/
def monitorNegW : ExtractionMonitor :=
  { maxFileSize := -1, maxTotalSize := 1000, maxRatio := (200 : ℚ),
    archiveSize := -3, memberBytes := 0, totalBytes := 0 }

def copyNameW : Str := ['c', 'o', 'p', 'y', '.', 't', 'x', 't']

def origNameW : Str := ['o', 'r', 'i', 'g', 'i', 'n', 'a', 'l', '.', 't', 'x', 't']

/-- A hardlink member pointing at `original.txt`, placed before the
member that would create it (scenario 5 of the spec). -/
def infoHardlinkW : TarInfo :=
  { name := copyNameW, typeCode := '1', linkname := origNameW,
    sparseAttr := false, paxHeaders := [], mode := none, uid := 0, gid := 0,
    mtime := 0, source := .none' }

def infoOriginalW : TarInfo :=
  { name := origNameW, typeCode := '0', linkname := [],
    sparseAttr := false, paxHeaders := [], mode := none, uid := 0, gid := 0,
    mtime := 0, source := .stream [.chunk 5] }

/-- A one-character regular-file member whose name passes the guard's
filename check (claim C10). -/
def infoShortNameW : TarInfo :=
  { name := ['f'], typeCode := '0', linkname := [],
    sparseAttr := false, paxHeaders := [], mode := none, uid := 0, gid := 0,
    mtime := 0, source := .stream [] }

/-- A process whose real and effective uids differ (a setuid binary
running as root with real uid 1000). -/
def procSetuidW : ProcessIds :=
  { realUid := 1000, realGid := 1000, effUid := 0, effGid := 0 }

/-- Concrete destination and temporary-sibling paths for the streamer
witness. -/
def destW : Str := baseW ++ '/' :: origNameW

def tempW : Str := destW ++ ['.', 't', 'm', 'p']

/-- A member name containing a cancellable `..` segment. -/
def nameTravW : Str := ['a', '/', '.', '.', '/', 'b']

/-- Any `..` segment in the split name makes the cleaning loop fail. -/
theorem cleanParts_dotdot (l : List Str) (h : ['.', '.'] ∈ l) :
    cleanParts l = .error (.unsafeEntry .traversal) := by
  induction l with
  | nil => cases h
  | cons p rest ih =>
    rcases List.mem_cons.mp h with h | h
    · unfold cleanParts
      have h1 : ¬(p = [] ∨ p = ['.']) := by
        rintro (rfl | rfl) <;> cases h
      simp [h1, ← h]
    · unfold cleanParts
      by_cases h1 : p = [] ∨ p = ['.']
      · simp [h1, ih h]
      · by_cases h2 : p = ['.', '.']
        · simp [h1, h2]
        · simp [h1, h2, ih h, Except.map]

/-- C1: for every base directory and every member name whose
NFC-normalised, backslash-to-slash-normalised form contains a `..` path
segment, begins with `/`, or matches a Windows drive-letter absolute
prefix, `resolve_member_path` raises `UnsafeEntryError`; `..` segments
are rejected outright rather than cancelled against preceding
segments. -/
theorem resolve_member_path_rejects_traversal_and_absolute
    (nfc : Str → Str) (fsResolve : Str → Option Str) (base name : Str)
    (h : hasDotDotSegment (normSep (nfc name)) ∨
         startsWithSlash (normSep (nfc name)) = true ∨
         isWindowsAbs (normSep (nfc name)) = true) :
    ∃ r, resolve_member_path nfc fsResolve base name = .error (.unsafeEntry r) := by
  unfold resolve_member_path
  by_cases h1 : startsWithSlash (normSep (nfc name)) = true
  · exact ⟨.absolutePath, by simp [h1]⟩
  · by_cases h2 : isWindowsAbs (normSep (nfc name)) = true
    · exact ⟨.windowsAbsolute, by simp [h1, h2]⟩
    · have hd : hasDotDotSegment (normSep (nfc name)) := by tauto
      have hc := cleanParts_dotdot (splitSlash (normSep (nfc name))) hd
      exact ⟨.traversal, by simp [h1, h2, hc]⟩

/-- Witness for C1 at the cancellable traversal name `a/../b`. -/
theorem resolve_member_path_rejects_traversal_witness :
    ∃ r, resolve_member_path id fsResolveW baseW nameTravW =
      .error (.unsafeEntry r) :=
  resolve_member_path_rejects_traversal_and_absolute id fsResolveW baseW
    nameTravW (Or.inl (by decide))

/-- A successful resolution satisfies the belt-and-braces containment
condition (it is the guard of the only `ok` branch). -/
theorem resolve_ok_contained (nfc : Str → Str) (fsResolve : Str → Option Str)
    (base name R : Str)
    (h : resolve_member_path nfc fsResolve base name = .ok R) :
    containedIn fsResolve base R := by
  unfold resolve_member_path at h
  dsimp only at h
  split at h
  · cases h
  · split at h
    · cases h
    · split at h
      · cases h
      · split at h
        · cases h
        · split at h
          · cases h
          · split at h
            · cases h
            · split at h
              · cases h
                assumption
              · cases h

/-- A successful hardlink verification returns exactly the resolution of
the raw target through the member-name pipeline. -/
theorem verify_hardlink_ok_resolve (nfc : Str → Str)
    (fsResolve : Str → Option Str) (disk : Str → Bool) (base L T : Str)
    (S : List Str) (tgt : Str)
    (h : verify_hardlink_target nfc fsResolve disk base L T S = .ok tgt) :
    resolve_member_path nfc fsResolve base T = .ok tgt := by
  unfold verify_hardlink_target at h
  split at h
  · cases h
  · split at h
    · cases h
    · split at h
      · cases h
      · cases h
        assumption

/-- A successful `extract_one` step preserves the state invariant and
emits only member-phase actions, all of whose destination paths satisfy
the containment condition. -/
theorem extract_one_ok (nfc : Str → Str) (fsResolve : Str → Option Str)
    (disk : Str → Bool) (sp : SymlinkPolicy) (hp : HardlinkPolicy)
    (spp : SparsePolicy) (base : Str) (info : TarInfo) (st : OState)
    (acts : List Action) (st' : OState)
    (h : extract_one nfc fsResolve disk sp hp spp base info st = .ok (acts, st'))
    (hg : GoodState fsResolve base st) :
    GoodState fsResolve base st' ∧
    ∀ a ∈ acts, isMemberAction a = true ∧
      ∀ p ∈ actionPaths a, containedIn fsResolve base p := by
  unfold extract_one at h
  split at h
  · cases h
  · split at h
    · cases h
      exact ⟨hg, by simp⟩
    · split at h
      · cases h
      · split at h
        · cases h
        · split at h
          · cases h
          · rename_i dest_path hdest
            have hd := resolve_ok_contained _ _ _ _ _ hdest
            split at h
            · cases h
            · split at h
              · -- defer_symlink branch
                cases h
                refine ⟨⟨?_, hg.2⟩, by simp⟩
                intro pt hpt
                rcases List.mem_append.mp hpt with hm | hm
                · exact hg.1 pt hm
                · have : pt = (dest_path, info.linkname) := by simpa using hm
                  rw [this]
                  exact hd
              · split at h
                · -- directory branch
                  cases h
                  refine ⟨⟨hg.1, ?_⟩, ?_⟩
                  · intro pd hpd
                    rcases List.mem_append.mp hpd with hm | hm
                    · exact hg.2 pd hm
                    · have : pd = (info, dest_path) := by simpa using hm
                      rw [this]
                      exact hd
                  · intro a ha
                    have : a = Action.mkdirA dest_path := by simpa using ha
                    subst this
                    refine ⟨rfl, ?_⟩
                    intro p hp
                    have : p = dest_path := by simpa [actionPaths] using hp
                    subst this
                    exact hd
                · split at h
                  · -- hardlink branch
                    split at h
                    · cases h
                    · rename_i target_path hver
                      cases h
                      have ht := resolve_ok_contained _ _ _ _ _
                        (verify_hardlink_ok_resolve _ _ _ _ _ _ _ _ hver)
                      refine ⟨hg, ?_⟩
                      intro a ha
                      simp only [List.mem_cons, List.not_mem_nil, or_false] at ha
                      rcases ha with rfl | rfl
                      · refine ⟨rfl, ?_⟩
                        intro p hp
                        have : p = dest_path := by simpa [actionPaths] using hp
                        subst this
                        exact hd
                      · refine ⟨rfl, ?_⟩
                        intro p hp
                        simp only [actionPaths, List.mem_cons, List.not_mem_nil,
                          or_false] at hp
                        rcases hp with rfl | rfl
                        · exact ht
                        · exact hd
                  · -- regular-file streaming branch
                    split at h
                    · cases h
                    · cases h
                      refine ⟨hg, ?_⟩
                      intro a ha
                      simp only [List.mem_cons, List.not_mem_nil, or_false] at ha
                      rcases ha with rfl | rfl | rfl <;> refine ⟨rfl, ?_⟩ <;>
                        intro p hp <;>
                        have : p = dest_path := by simpa [actionPaths] using hp
                      all_goals (subst this; exact hd)

/-- The member loop emits only member-phase actions with contained
destination paths, and preserves the state invariant. -/
theorem runMembers_good (nfc : Str → Str) (fsResolve : Str → Option Str)
    (disk : Str → Bool) (sp : SymlinkPolicy) (hp : HardlinkPolicy)
    (spp : SparsePolicy) (base : Str) :
    ∀ (infos : List TarInfo) (st : OState), GoodState fsResolve base st →
      (∀ a ∈ (runMembers nfc fsResolve disk sp hp spp base infos st).1,
         isMemberAction a = true ∧
           ∀ p ∈ actionPaths a, containedIn fsResolve base p) ∧
      GoodState fsResolve base
        (runMembers nfc fsResolve disk sp hp spp base infos st).2.1 := by
  intro infos
  induction infos with
  | nil =>
    intro st hg
    exact ⟨by simp [runMembers], by simpa [runMembers] using hg⟩
  | cons info rest ih =>
    intro st hg
    unfold runMembers
    cases hcall : extract_one nfc fsResolve disk sp hp spp base info st with
    | error e => exact ⟨by simp, hg⟩
    | ok pr =>
      obtain ⟨acts, st1⟩ := pr
      have h1 := extract_one_ok nfc fsResolve disk sp hp spp base info st
        acts st1 hcall hg
      have h2 := ih st1 h1.1
      refine ⟨?_, h2.2⟩
      intro a ha
      rcases List.mem_append.mp ha with hm | hm
      · exact h1.2 a hm
      · exact h2.1 a hm

/-- The deferred-symlink loop emits only symlink-phase actions, on
paths drawn from the (contained) deferred queue. -/
theorem runSymlinks_good (chainOk : Str → Str → Bool)
    (fsResolve : Str → Option Str) (base : Str) :
    ∀ syms : List (Str × Str),
      (∀ pt ∈ syms, containedIn fsResolve base pt.1) →
      ∀ a ∈ (runSymlinks chainOk syms).1,
        isSymPhaseAction a = true ∧
          ∀ p ∈ actionPaths a, containedIn fsResolve base p := by
  intro syms
  induction syms with
  | nil => intro _ a ha; simp [runSymlinks] at ha
  | cons pt rest ih =>
    obtain ⟨p, t⟩ := pt
    intro hcont a ha
    unfold runSymlinks at ha
    by_cases hch : chainOk p t = true
    · simp only [hch, if_true, List.mem_cons] at ha
      have hp : containedIn fsResolve base p := hcont (p, t) (by simp)
      rcases ha with rfl | rfl | ha
      · refine ⟨rfl, ?_⟩
        intro q hq
        have : q = p := by simpa [actionPaths] using hq
        subst this; exact hp
      · refine ⟨rfl, ?_⟩
        intro q hq
        have : q = p := by simpa [actionPaths] using hq
        subst this; exact hp
      · exact ih (fun pt2 h2 => hcont pt2 (List.mem_cons_of_mem _ h2)) a ha
    · simp only [hch] at ha
      simp at ha

/-- The deferred-directory loop emits only directory-metadata actions,
on paths drawn from the (contained) deferred queue. -/
theorem runDirs_good (fsResolve : Str → Option Str) (base : Str) :
    ∀ dirs : List (TarInfo × Str),
      (∀ pd ∈ dirs, containedIn fsResolve base pd.2) →
      ∀ a ∈ runDirs dirs,
        isDirMetaAction a = true ∧
          ∀ p ∈ actionPaths a, containedIn fsResolve base p := by
  intro dirs
  induction dirs with
  | nil => intro _ a ha; simp [runDirs] at ha
  | cons pd rest ih =>
    obtain ⟨inf0, dp0⟩ := pd
    intro hcont a ha
    unfold runDirs at ha
    rcases List.mem_cons.mp ha with rfl | ha
    · refine ⟨rfl, ?_⟩
      intro r hr
      simp only [actionPaths, List.mem_cons, List.not_mem_nil, or_false] at hr
      subst hr
      exact hcont _ (List.mem_cons_self _ _)
    · exact ih (fun pd2 h2 => hcont pd2 (List.mem_cons_of_mem _ h2)) a ha

/-- C5: in every run of `extractall` the action trace decomposes into
the per-member extraction phase, then the deferred-symlink phase, then
the deferred directory-metadata phase: no symlink is created before all
non-deferred members have been processed, and no directory metadata is
applied before all deferred symlinks have been created. -/
theorem extractall_phase_order (nfc : Str → Str) (fsResolve : Str → Option Str)
    (disk : Str → Bool) (chainOk : Str → Str → Bool) (sp : SymlinkPolicy)
    (hp : HardlinkPolicy) (spp : SparsePolicy) (base : Str)
    (m0 : ExtractionMonitor) (infos : List TarInfo) :
    ∃ t1 t2 t3,
      (extractall nfc fsResolve disk chainOk sp hp spp base m0 infos).1 =
        t1 ++ t2 ++ t3 ∧
      (∀ a ∈ t1, isMemberAction a = true) ∧
      (∀ a ∈ t2, isSymPhaseAction a = true) ∧
      (∀ a ∈ t3, isDirMetaAction a = true) := by
  have hg0 : GoodState fsResolve base ⟨m0, [], [], []⟩ :=
    ⟨fun pt hpt => absurd hpt (List.not_mem_nil _),
     fun pd hpd => absurd hpd (List.not_mem_nil _)⟩
  have h1 := runMembers_good nfc fsResolve disk sp hp spp base infos
    ⟨m0, [], [], []⟩ hg0
  have h2 := runSymlinks_good chainOk fsResolve base
    (runMembers nfc fsResolve disk sp hp spp base infos ⟨m0, [], [], []⟩).2.1.syms
    h1.2.1
  have h3 := runDirs_good fsResolve base
    (runMembers nfc fsResolve disk sp hp spp base infos ⟨m0, [], [], []⟩).2.1.dirs
    h1.2.2
  unfold extractall
  dsimp only
  split
  · exact ⟨_, [], [], by simp, fun a ha => (h1.1 a ha).1, by simp, by simp⟩
  · split
    · exact ⟨_, _, [], by simp, fun a ha => (h1.1 a ha).1,
        fun a ha => (h2 a ha).1, by simp⟩
    · exact ⟨_, _, _, rfl, fun a ha => (h1.1 a ha).1,
        fun a ha => (h2 a ha).1, fun a ha => (h3 a ha).1⟩

/-- C2: a path returned by `resolve_member_path` satisfies the
containment condition (its fully-resolved form equals the resolved base
or extends it by a separator), and every destination path handed to the
write phases of `extractall` satisfies the same containment. -/
theorem resolved_paths_contained_in_base :
    (∀ (nfc : Str → Str) (fsResolve : Str → Option Str) (base name R : Str),
       resolve_member_path nfc fsResolve base name = .ok R →
       containedIn fsResolve base R) ∧
    (∀ (nfc : Str → Str) (fsResolve : Str → Option Str) (disk : Str → Bool)
       (chainOk : Str → Str → Bool) (sp : SymlinkPolicy) (hp : HardlinkPolicy)
       (spp : SparsePolicy) (base : Str) (m0 : ExtractionMonitor)
       (infos : List TarInfo),
       ∀ a ∈ (extractall nfc fsResolve disk chainOk sp hp spp base m0 infos).1,
         ∀ p ∈ actionPaths a, containedIn fsResolve base p) := by
  constructor
  · exact resolve_ok_contained
  · intro nfc fsResolve disk chainOk sp hp spp base m0 infos a ha p hp2
    have hg0 : GoodState fsResolve base ⟨m0, [], [], []⟩ :=
      ⟨fun pt hpt => absurd hpt (List.not_mem_nil _),
       fun pd hpd => absurd hpd (List.not_mem_nil _)⟩
    have h1 := runMembers_good nfc fsResolve disk sp hp spp base infos
      ⟨m0, [], [], []⟩ hg0
    have h2 := runSymlinks_good chainOk fsResolve base
      (runMembers nfc fsResolve disk sp hp spp base infos ⟨m0, [], [], []⟩).2.1.syms
      h1.2.1
    have h3 := runDirs_good fsResolve base
      (runMembers nfc fsResolve disk sp hp spp base infos ⟨m0, [], [], []⟩).2.1.dirs
      h1.2.2
    unfold extractall at ha
    dsimp only at ha
    split at ha
    · exact (h1.1 a ha).2 p hp2
    · split at ha
      · rcases List.mem_append.mp ha with hm | hm
        · exact (h1.1 a hm).2 p hp2
        · exact (h2 a hm).2 p hp2
      · rcases List.mem_append.mp ha with hm | hm
        · rcases List.mem_append.mp hm with hm2 | hm2
          · exact (h1.1 a hm2).2 p hp2
          · exact (h2 a hm2).2 p hp2
        · exact (h3 a hm).2 p hp2

/-- Witness for C2: resolving `original.txt` against `/tmp/out`
succeeds and the result is contained in the base. -/
theorem resolved_paths_contained_witness :
    containedIn fsResolveW baseW (baseW ++ '/' :: origNameW) :=
  (resolved_paths_contained_in_base).1 id fsResolveW baseW origNameW
    (baseW ++ '/' :: origNameW) (by rfl)

/-- The guarded ratio check is equivalent to the single conjunctive
condition of the claim. -/
theorem check_ratio_eq (m' : ExtractionMonitor) :
    m'.check_ratio =
      if 0 < m'.archiveSize ∧
           m'.maxRatio < (m'.totalBytes : ℚ) / (m'.archiveSize : ℚ) then
        .error .compressionRatio
      else .ok () := by
  unfold ExtractionMonitor.check_ratio
  by_cases h3 : m'.archiveSize ≤ 0
  · have hn : ¬(0 < m'.archiveSize ∧
        m'.maxRatio < (m'.totalBytes : ℚ) / (m'.archiveSize : ℚ)) :=
      fun hc => absurd hc.1 (not_lt.mpr h3)
    simp [h3, hn]
  · have hpos : 0 < m'.archiveSize := by omega
    by_cases h4 : m'.maxRatio < (m'.totalBytes : ℚ) / (m'.archiveSize : ℚ)
    · simp [h3, h4, hpos]
    · simp [h3, h4]

/-- The monitor's accounting step equals its claim-side description. -/
theorem account_eq_accountClaim (m : ExtractionMonitor) (n : Nat) :
    ExtractionMonitor.account m n = accountClaim m n := by
  unfold ExtractionMonitor.account accountClaim
  dsimp only
  rw [check_ratio_eq]
  dsimp only
  split_ifs <;> simp_all [Except.map]

/-- C3: `account(n)` adds `n` to both counters and then raises
`FileSizeExceededError` when the per-member counter exceeds
`max_file_size`, otherwise `TotalSizeExceededError` when the total
counter exceeds `max_total_size`, otherwise `CompressionRatioError`
when `archive_size > 0` and the ratio exceeds `max_ratio`; no ratio
error is ever raised when `archive_size` is zero or negative. -/
theorem monitor_account_enforces_limits :
    (∀ (m : ExtractionMonitor) (n : Nat),
       ExtractionMonitor.account m n = accountClaim m n) ∧
    (∀ (m : ExtractionMonitor) (n : Nat), m.archiveSize ≤ 0 →
       ∀ e, ExtractionMonitor.account m n = .error e →
         e ≠ .compressionRatio) := by
  refine ⟨account_eq_accountClaim, ?_⟩
  intro m n hle e he
  rw [account_eq_accountClaim] at he
  unfold accountClaim at he
  dsimp only at he
  split at he
  · cases he
    simp
  · split at he
    · cases he
      simp
    · split at he
      · rename_i hc
        exact absurd hc.1 (by omega)
      · cases he

/-- Witness for C3: a monitor with negative `archive_size` whose
per-member limit is violated errors with `FileSizeExceededError`, not a
ratio error. -/
theorem monitor_account_witness :
    ∃ e, ExtractionMonitor.account monitorNegW 2 = .error e ∧
      e ≠ .compressionRatio :=
  ⟨.fileSizeExceeded, by rfl,
    (monitor_account_enforces_limits).2 monitorNegW 2 (by decide)
      .fileSizeExceeded (by rfl)⟩

/-- C7: `validate_entry_type` tests sparseness first (rejecting or
extracting per `sparse_policy`), then returns `extract` for regular
files and directories, maps symlinks and hardlinks through their
policies, raises a labelled `UnsafeEntryTypeError` for character
devices, block devices and FIFOs, and raises `UnsafeEntryTypeError`
for every other type code. -/
theorem validate_entry_type_matches_claim (info : TarInfo)
    (sp : SymlinkPolicy) (hp : HardlinkPolicy) (spp : SparsePolicy) :
    validate_entry_type info sp hp spp = validateEntryTypeClaim info sp hp spp := by
  unfold validate_entry_type validateEntryTypeClaim
  by_cases hs : is_sparse info = true
  · cases spp <;> simp [hs]
  · by_cases hr : inRegularTypes info.typeCode = true
    · have hr' : info.typeCode = regType ∨ info.typeCode = aregType ∨
          info.typeCode = contType := by
        have h0 := hr
        simp only [inRegularTypes, Bool.or_eq_true, beq_iff_eq] at h0
        tauto
      rcases hr' with h | h | h <;> rw [h, if_neg hs, if_neg hs] <;> rfl
    · by_cases hd : inDirTypes info.typeCode = true
      · have hd' : info.typeCode = dirType := by
          simpa [inDirTypes] using hd
        rw [hd', if_neg hs, if_neg hs]
        rfl
      · have hr2 : ¬(info.typeCode = regType ∨ info.typeCode = aregType ∨
            info.typeCode = contType) := by
          have h0 := hr
          simp only [inRegularTypes, Bool.or_eq_true, beq_iff_eq] at h0
          tauto
        have hd2 : ¬info.typeCode = dirType := by
          simpa [inDirTypes] using hd
        have hfst : ¬(info.typeCode = regType ∨ info.typeCode = aregType ∨
            info.typeCode = contType ∨ info.typeCode = dirType) := by tauto
        by_cases hsym : inSymlinkTypes info.typeCode = true
        · have hsym' : info.typeCode = symType := by
            simpa [inSymlinkTypes] using hsym
          rw [hsym', if_neg hs, if_neg hs]
          cases sp <;> rfl
        · have hsym2 : ¬info.typeCode = symType := by
            simpa [inSymlinkTypes] using hsym
          by_cases hlnk : inHardlinkTypes info.typeCode = true
          · have hlnk' : info.typeCode = lnkType := by
              simpa [inHardlinkTypes] using hlnk
            rw [hlnk', if_neg hs, if_neg hs]
            cases hp <;> rfl
          · have hlnk2 : ¬info.typeCode = lnkType := by
              simpa [inHardlinkTypes] using hlnk
            by_cases hc : info.typeCode = chrType
            · rw [hc, if_neg hs, if_neg hs]
              rfl
            · by_cases hb : info.typeCode = blkType
              · rw [hb, if_neg hs, if_neg hs]
                rfl
              · by_cases hf : info.typeCode = fifoType
                · rw [hf, if_neg hs, if_neg hs]
                  rfl
                · simp [hs, hr, hd, hsym, hlnk, hfst, hsym2, hlnk2,
                    hc, hb, hf, inForbiddenTypes]

/-- C4: `verify_hardlink_target` resolves the raw target through the
member-name pipeline (propagating its `UnsafeEntryError` when the
target escapes), rejects targets not yet in the extracted set (forward
references) and targets missing on disk, and otherwise returns the
resolved target; in particular an archive in which a hardlink entry
precedes its target entry fails with `UnsafeEntryError`. -/
theorem verify_hardlink_target_spec :
    (∀ (nfc : Str → Str) (fsResolve : Str → Option Str) (disk : Str → Bool)
       (base L T : Str) (S : List Str) (e : Err),
       resolve_member_path nfc fsResolve base T = .error e →
       verify_hardlink_target nfc fsResolve disk base L T S = .error e) ∧
    (∀ (nfc : Str → Str) (fsResolve : Str → Option Str) (disk : Str → Bool)
       (base L T : Str) (S : List Str) (tgt : Str),
       resolve_member_path nfc fsResolve base T = .ok tgt → tgt ∉ S →
       verify_hardlink_target nfc fsResolve disk base L T S =
         .error (.unsafeEntry .forwardReference)) ∧
    (∀ (nfc : Str → Str) (fsResolve : Str → Option Str) (disk : Str → Bool)
       (base L T : Str) (S : List Str) (tgt : Str),
       resolve_member_path nfc fsResolve base T = .ok tgt → tgt ∈ S →
       disk tgt = false →
       verify_hardlink_target nfc fsResolve disk base L T S =
         .error (.unsafeEntry .targetMissing)) ∧
    (∀ (nfc : Str → Str) (fsResolve : Str → Option Str) (disk : Str → Bool)
       (base L T : Str) (S : List Str) (tgt : Str),
       resolve_member_path nfc fsResolve base T = .ok tgt → tgt ∈ S →
       disk tgt = true →
       verify_hardlink_target nfc fsResolve disk base L T S = .ok tgt) ∧
    extractall id fsResolveW (fun _ => false) (fun _ _ => true) .reject
      .internal .reject baseW monitorW [infoHardlinkW, infoOriginalW] =
      ([], some (.unsafeEntry .forwardReference)) := by
  refine ⟨?_, ?_, ?_, ?_, ?_⟩
  · intro nfc fsResolve disk base L T S e h
    simp [verify_hardlink_target, h]
  · intro nfc fsResolve disk base L T S tgt h hnot
    simp [verify_hardlink_target, h, hnot]
  · intro nfc fsResolve disk base L T S tgt h hmem hdisk
    simp [verify_hardlink_target, h, hmem, hdisk]
  · intro nfc fsResolve disk base L T S tgt h hmem hdisk
    simp [verify_hardlink_target, h, hmem, hdisk]
  · rfl

/-- Witness for C4: a hardlink whose target was already extracted and
exists on disk verifies successfully. -/
theorem verify_hardlink_target_witness :
    verify_hardlink_target id fsResolveW (fun _ => true) baseW
      (baseW ++ '/' :: copyNameW) origNameW [baseW ++ '/' :: origNameW] =
      .ok (baseW ++ '/' :: origNameW) :=
  (verify_hardlink_target_spec).2.2.2.1 id fsResolveW (fun _ => true) baseW
    (baseW ++ '/' :: copyNameW) origNameW [baseW ++ '/' :: origNameW]
    (baseW ++ '/' :: origNameW) (by rfl) (by simp) (by rfl)

/-- Deleting a path removes it from the filesystem map. -/
theorem fsGet_fsDel_self (fs : FS) (p : Str) : fsGet (fsDel fs p) p = none := by
  induction fs with
  | nil => rfl
  | cons kv rest ih =>
    obtain ⟨q, v⟩ := kv
    by_cases h : q = p
    · simpa [fsDel, h] using ih
    · simp [fsDel, fsGet, h, ih]

/-- Deleting a path leaves every other path unchanged. -/
theorem fsGet_fsDel_other (fs : FS) (p q : Str) (h : ¬p = q) :
    fsGet (fsDel fs p) q = fsGet fs q := by
  induction fs with
  | nil => rfl
  | cons kv rest ih =>
    obtain ⟨r, v⟩ := kv
    by_cases h2 : r = p
    · have hrq : ¬r = q := by rw [h2]; exact h
      simp [fsDel, fsGet, h2, hrq, ih, h]
    · by_cases h3 : r = q
      · have hqp : ¬q = p := by rw [← h3]; exact h2
        simp [fsDel, fsGet, h2, h3, hqp]
      · simp [fsDel, fsGet, h2, h3, ih]

/-- Writing a path leaves every other path unchanged. -/
theorem fsGet_fsSet_other (fs : FS) (p q : Str) (v : Nat) (h : ¬p = q) :
    fsGet (fsSet fs p v) q = fsGet fs q := by
  simp [fsSet, fsGet, h]

/-- The chunk-copy loop only ever writes the temporary file. -/
theorem writeChunks_other (temp q : Str) (h : ¬temp = q) :
    ∀ (evs : List ReadEv) (m : ExtractionMonitor) (fs : FS),
      fsGet (writeChunks temp evs m fs).2 q = fsGet fs q := by
  intro evs
  induction evs with
  | nil => intro m fs; rfl
  | cons ev rest ih =>
    intro m fs
    cases ev with
    | chunk n =>
      unfold writeChunks
      dsimp only
      cases hacc : m.account n with
      | error e => simp [hacc, fsGet_fsSet_other _ _ _ _ h]
      | ok m2 => simp [hacc, ih, fsGet_fsSet_other _ _ _ _ h]
    | tarErr => rfl
    | eofErr => rfl
    | ioErr => rfl

/-- C6: on any failure of `extract_member_streaming` (monitor
threshold, reader error, EOF, I/O error) the temporary file is removed
and the destination is untouched; the error propagates with
`tarfile.TarError` and `EOFError` remapped to `MalformedArchiveError`;
the destination is only created by the final rename, and even on
success no temporary file remains. -/
theorem extract_member_streaming_cleanup (source : SourceR) (dest temp : Str)
    (m : ExtractionMonitor) (fs : FS) (hneq : ¬temp = dest) :
    (∀ e, (extract_member_streaming source dest temp m fs).1 = .error e →
       fsGet (extract_member_streaming source dest temp m fs).2.1 temp = none ∧
       fsGet (extract_member_streaming source dest temp m fs).2.1 dest =
         fsGet fs dest) ∧
    ((extract_member_streaming source dest temp m fs).1 = .ok () →
       fsGet (extract_member_streaming source dest temp m fs).2.1 temp = none) ∧
    (∀ (evs : List ReadEv) (exc : StreamExc) (fs2 : FS),
       source = .stream evs →
       writeChunks temp evs m.reset_member (fsSet fs temp 0) = (.error exc, fs2) →
       (extract_member_streaming source dest temp m fs).1 =
         .error (remapExc exc)) ∧
    (∀ b, source = .raises b →
       (extract_member_streaming source dest temp m fs).1 =
         .error (if b then Err.malformedArchive else Err.ioError)) := by
  have hdt : ¬dest = temp := fun h2 => hneq h2.symm
  cases source with
  | raises b =>
    refine ⟨?_, ?_, ?_, ?_⟩
    · intro e _
      exact ⟨fsGet_fsDel_self fs temp, fsGet_fsDel_other fs temp dest hneq⟩
    · intro h2
      cases h2
    · intro evs exc fs2 h2
      cases h2
    · intro b' h2
      cases h2
      cases b <;> rfl
  | none' =>
    refine ⟨?_, ?_, ?_, ?_⟩
    · intro e h2
      cases h2
    · intro _
      show fsGet (fsRename (fsSet fs temp 0) temp dest) temp = none
      unfold fsRename
      rw [fsGet_fsSet_other _ _ _ _ hdt]
      exact fsGet_fsDel_self _ temp
    · intro evs exc fs2 h2
      cases h2
    · intro b h2
      cases h2
  | stream evs =>
    cases hw : writeChunks temp evs m.reset_member (fsSet fs temp 0) with
    | mk res fs2 =>
      cases res with
      | ok m' =>
        refine ⟨?_, ?_, ?_, ?_⟩
        · intro e h2
          simp only [extract_member_streaming, hw] at h2
          cases h2
        · intro _
          show fsGet (extract_member_streaming (.stream evs) dest temp m fs).2.1
            temp = none
          simp only [extract_member_streaming, hw]
          unfold fsRename
          rw [fsGet_fsSet_other _ _ _ _ hdt]
          exact fsGet_fsDel_self _ temp
        · intro evs2 exc fs3 h2 h3
          cases h2
          rw [hw] at h3
          cases h3
        · intro b h2
          cases h2
      | error exc0 =>
        refine ⟨?_, ?_, ?_, ?_⟩
        · intro e _
          constructor
          · simp only [extract_member_streaming, hw]
            exact fsGet_fsDel_self _ temp
          · simp only [extract_member_streaming, hw]
            rw [fsGet_fsDel_other _ _ _ hneq]
            have h4 := writeChunks_other temp dest hneq evs m.reset_member
              (fsSet fs temp 0)
            rw [hw] at h4
            dsimp at h4
            rw [h4]
            exact fsGet_fsSet_other _ _ _ _ hneq
        · intro h2
          simp only [extract_member_streaming, hw] at h2
          cases h2
        · intro evs2 exc fs3 h2 h3
          cases h2
          rw [hw] at h3
          cases h3
          simp only [extract_member_streaming, hw]
        · intro b h2
          cases h2

/-- Witness for C6: a stream that yields one 5-byte chunk and then a
`tarfile.TarError` produces `MalformedArchiveError` and leaves no
temporary file behind. -/
theorem extract_member_streaming_cleanup_witness :
    (extract_member_streaming (SourceR.stream [.chunk 5, .tarErr]) destW tempW
        monitorW []).1 = .error .malformedArchive ∧
    fsGet (extract_member_streaming (SourceR.stream [.chunk 5, .tarErr]) destW
        tempW monitorW []).2.1 tempW = none := by
  have h := extract_member_streaming_cleanup
    (SourceR.stream [.chunk 5, .tarErr]) destW tempW monitorW [] (by decide)
  have h1 : (extract_member_streaming (SourceR.stream [.chunk 5, .tarErr]) destW
      tempW monitorW []).1 = .error .malformedArchive :=
    h.2.2.1 [.chunk 5, .tarErr] .tarError
      (writeChunks tempW [.chunk 5, .tarErr] monitorW.reset_member
        (fsSet [] tempW 0)).2 rfl (by rfl)
  exact ⟨h1, (h.1 .malformedArchive h1).1⟩

/-- The counted loop fails with `FileCountExceededError` as soon as an
all-member prefix pushes the count past `max_files`, whatever follows
in the stream. -/
theorem scanLoop_overflow (maxFiles : Int) :
    ∀ (pre post : List ScanEv) (count : Nat),
      (∀ ev ∈ pre, ev = ScanEv.member) →
      maxFiles < (count : Int) + pre.length →
      (count : Int) ≤ maxFiles →
      scanLoop maxFiles (pre ++ post) count = .error .fcee := by
  intro pre
  induction pre with
  | nil =>
    intro post count _ hlt hle
    simp only [List.length_nil, Nat.cast_zero, add_zero] at hlt
    exact absurd hlt (not_lt.mpr hle)
  | cons ev rest ih =>
    intro post count hall hlt hle
    have hev : ev = ScanEv.member := hall ev (List.mem_cons_self _ _)
    subst hev
    by_cases hc : maxFiles < ((count + 1 : Nat) : Int)
    · simp only [List.cons_append, scanLoop]
      rw [if_pos hc]
    · simp only [List.cons_append, scanLoop, hc, if_false]
      apply ih post (count + 1)
      · intro ev2 h2
        exact hall ev2 (List.mem_cons_of_mem _ h2)
      · push_cast
        simp only [List.length_cons] at hlt
        push_cast at hlt
        omega
      · omega

/-- C8: the pre-scan raises `FileCountExceededError` as soon as the
header count exceeds `max_files` (independently of the rest of the
stream and of how the reader closes); structural reader errors are
remapped to `MalformedArchiveError`, except that a pending
`FileCountExceededError` in the context of such an error is re-raised
instead of masked; and the stream is rewound on every exit path. -/
theorem pre_scan_file_count_spec :
    (∀ (pre post : List ScanEv) (closeExc : Option ScanExc) (maxFiles : Int),
       (∀ ev ∈ pre, ev = ScanEv.member) → 0 ≤ maxFiles →
       maxFiles < (pre.length : Int) →
       (pre_scan_file_count false closeExc (pre ++ post) maxFiles).1 =
         .error .fileCountExceeded) ∧
    (∀ (evs : List ScanEv) (closeExc : Option ScanExc) (maxFiles : Int)
       (e : ScanExc),
       scanLoop maxFiles evs 0 = .error e → e ≠ .fcee →
       closeExc ≠ some .fcee →
       (pre_scan_file_count false closeExc evs maxFiles).1 =
         .error .malformedArchive) ∧
    (∀ (evs : List ScanEv) (closeExc : Option ScanExc) (maxFiles : Int),
       scanLoop maxFiles evs 0 = .error .fcee →
       (pre_scan_file_count false closeExc evs maxFiles).1 =
         .error .fileCountExceeded) ∧
    (∀ (openFail : Bool) (closeExc : Option ScanExc) (evs : List ScanEv)
       (maxFiles : Int),
       (pre_scan_file_count openFail closeExc evs maxFiles).2 = true) := by
  refine ⟨?_, ?_, ?_, ?_⟩
  · intro pre post closeExc maxFiles hall hnn hlt
    have hbody : scanLoop maxFiles (pre ++ post) 0 = .error .fcee := by
      apply scanLoop_overflow maxFiles pre post 0 hall
      · simpa using hlt
      · simpa using hnn
    cases closeExc with
    | none => simp [pre_scan_file_count, hbody]
    | some c =>
      cases c <;> simp [pre_scan_file_count, hbody]
  · intro evs closeExc maxFiles e hbody he hclose
    cases closeExc with
    | none =>
      cases e with
      | fcee => exact absurd rfl he
      | tar => simp [pre_scan_file_count, hbody]
      | eof => simp [pre_scan_file_count, hbody]
      | os => simp [pre_scan_file_count, hbody]
    | some c =>
      cases c with
      | fcee => exact absurd rfl hclose
      | tar => simp [pre_scan_file_count, hbody, he]
      | eof => simp [pre_scan_file_count, hbody, he]
      | os => simp [pre_scan_file_count, hbody, he]
  · intro evs closeExc maxFiles hbody
    cases closeExc with
    | none => simp [pre_scan_file_count, hbody]
    | some c =>
      cases c <;> simp [pre_scan_file_count, hbody]
  · intro openFail closeExc evs maxFiles
    unfold pre_scan_file_count
    dsimp only
    split
    · rfl
    · split
      · rfl
      · split <;> rfl

/-- Witness for C8: two headers against `max_files = 1` fail with
`FileCountExceededError`. -/
theorem pre_scan_file_count_witness :
    (pre_scan_file_count false none [ScanEv.member, ScanEv.member] 1).1 =
      .error .fileCountExceeded :=
  (pre_scan_file_count_spec).1 [ScanEv.member, ScanEv.member] [] none 1
    (by decide) (by decide) (by decide)

/-- Counterexample for C9: in a process whose real and effective ids
differ, `sanitise_ownership` with `preserve_ownership=False` does not
return the effective ids (it calls `os.getuid`/`os.getgid`, which
return the real ids). -/
theorem sanitise_ownership_effective_counterexample :
    sanitise_ownership 5 6 false procSetuidW ≠
      (procSetuidW.effUid, procSetuidW.effGid) := by
  decide

/-- C9 (amended): `sanitise_ownership` returns the archive ids
unchanged when `preserve_ownership` is true, and the current process's
real uid and gid (`os.getuid()` / `os.getgid()`) otherwise. -/
theorem sanitise_ownership_real_ids (uid gid : Int)
    (preserve_ownership : Bool) (proc : ProcessIds) :
    sanitise_ownership uid gid preserve_ownership proc =
      if preserve_ownership then (uid, gid)
      else (proc.realUid, proc.realGid) := rfl

/-- C10: the sandbox's 4096-character limit applies to the composed
destination path, not the member name alone: a one-character name under
a 4095-character base is rejected with `UnsafeEntryError` by
`resolve_member_path` even though the guard's `validate_filename`
accepts it. -/
theorem resolve_length_limit_on_composed_path :
    resolve_member_path id fsResolveW longBaseW ['f'] =
      .error (.unsafeEntry .overLength) ∧
    validate_filename infoShortNameW = .ok ['f'] ∧
    infoShortNameW.name.length = 1 ∧
    (longBaseW ++ '/' :: ['f']).length = 4097 := by
  have hlen : (longBaseW ++ '/' :: ['f']).length = 4097 := by
    unfold longBaseW
    rw [List.length_append, List.length_cons, List.length_replicate]
    decide
  refine ⟨?_, by rfl, by rfl, hlen⟩
  unfold resolve_member_path
  dsimp only
  rw [if_neg (by decide), if_neg (by decide)]
  rw [show cleanParts (splitSlash (normSep (id ['f']))) = .ok [['f']] from rfl]
  dsimp only
  rw [if_neg (by decide), if_neg (by decide)]
  rw [show joinSlash [['f']] = ['f'] from rfl, hlen]
  rw [if_pos (by decide)]

end Safetar
